import Mathlib

/-!
Shallow embedding of the `Queue` task runner (schie/queue, `src/queue.ts`).

The TypeScript class is single-threaded and cooperative: every public method
runs synchronously to completion, and the async `processLoop` only yields at
its `await` points.  We therefore model the runner as a pure transition
system: `QueueState` holds the instance fields, `LoopPos` records where the
`processLoop` coroutine is suspended (if a runner exists at all), and each
public method (and each resumption of the loop between two `await` points)
is a total function `Config → Config`.

Tasks are opaque: we record an identifier and the outcome the task produces
(success, or a thrown value).  Invocations of the `onStatusChange` callback
are recorded in the `events` field, newest first.  The ids of tasks whose
bodies have been invoked are recorded in `executed`, oldest first.
-/

namespace SchieQueue

/-- The four queue statuses from `_enums.ts` (`QueueStatus`). -/
inductive QueueStatus
  | Idle
  | Processing
  | Paused
  | Cancelled
deriving DecidableEq, Repr

/-- A JavaScript `Error` value, reduced to the only field the queue reads. -/
structure Err where
  message : String
deriving DecidableEq, Repr

/-- A thrown value: either a real `Error` object or any other value,
represented by its string form (`String(err)`). -/
inductive Thrown
  | errObj (e : Err)
  | other (strForm : String)
deriving DecidableEq, Repr

/-- `err instanceof Error ? err : new Error(String(err))` from the catch
block of `processLoop`. -/
def wrapThrown : Thrown → Err
  | .errObj e => e
  | .other s => { message := s }

/-- The outcome a task's async body produces when awaited. -/
inductive Outcome
  | ok
  | fail (t : Thrown)
deriving DecidableEq, Repr

/-- An opaque task: an identifier (so executions can be counted and ordered)
together with the outcome its body produces. -/
structure Task where
  id : Nat
  outcome : Outcome
deriving DecidableEq, Repr

/-- `QueueEntry` from the source: a task plus its optional dedupe key. -/
structure QueueEntry where
  task : Task
  key : Option String
deriving DecidableEq, Repr

/-- The instance fields of the `Queue` class, plus the two observation
logs (`events`, `executed`).  `resumeResolve` is `true` exactly while a
resolver for the resume promise is registered and not yet called. -/
structure QueueState where
  queue : List QueueEntry
  status : QueueStatus
  resumeResolve : Bool
  lastError : Option Err
  pauseOnError : Bool
  currentTaskKey : Option String
  version : Nat
  events : List QueueStatus
  executed : List Nat
deriving DecidableEq, Repr

/-- Where the `processLoop` coroutine is suspended:
* `atTop` — about to evaluate the `while` condition;
* `blocked released` — awaiting the resume promise (`released` becomes true
  once somebody has called the stored resolver);
* `inTask e` — awaiting `entry.task()` for entry `e`;
* `finished` — body returned, the `.finally` that clears `runner` is pending. -/
inductive LoopPos
  | atTop
  | blocked (released : Bool)
  | inTask (e : QueueEntry)
  | finished
deriving DecidableEq, Repr

/-- A live runner: the generation it captured at start, and its position. -/
structure LoopState where
  gen : Nat
  pos : LoopPos
deriving DecidableEq, Repr

/-- Whole-system configuration: queue fields plus the runner (`none` models
`this.runner === null`). -/
structure Config where
  st : QueueState
  loop : Option LoopState
deriving DecidableEq, Repr

/-- The constructor: all fields at their initial values; the callback is
fired once with `Idle` immediately. -/
def initState (pauseOnError : Bool) : QueueState :=
  { queue := []
    status := .Idle
    resumeResolve := false
    lastError := none
    pauseOnError := pauseOnError
    currentTaskKey := none
    version := 0
    events := [.Idle]
    executed := [] }

/-- Initial configuration: no runner. -/
def mkQueue (pauseOnError : Bool) : Config :=
  { st := initState pauseOnError, loop := none }

/-- `setStatus` from the source: assign and notify only when the value
actually changes. -/
def setStatus (s : QueueState) (next : QueueStatus) : QueueState :=
  if s.status ≠ next then
    { s with status := next, events := next :: s.events }
  else s

/-- JavaScript truthiness of the optional dedupe key: `undefined` and the
empty string are both falsy. -/
def truthy : Option String → Bool
  | none => false
  | some s => s ≠ ""

/-- `this.queue.length > 0 ? this.queue[this.queue.length - 1]?.key
: this.currentTaskKey` — the key the dedupe check compares against. -/
def lastKeyOf (s : QueueState) : Option String :=
  match s.queue.getLast? with
  | some e => e.key
  | none => s.currentTaskKey

/-- `this.resumeResolve?.(); this.resumeResolve = null` — calling the stored
resolver releases a loop blocked on the resume promise. -/
def resolveResume (c : Config) : Config :=
  if c.st.resumeResolve then
    { st := { c.st with resumeResolve := false }
      loop :=
        match c.loop with
        | some l =>
          match l.pos with
          | .blocked _ => some { l with pos := .blocked true }
          | _ => some l
        | none => none }
  else c

/-- `startRunner` from the source.  Creating the runner leaves the coroutine
at the top of its `while` loop with the captured generation (`setStatus`
never changes `version`, so the captured generation is `c.st.version`). -/
def startRunner (c : Config) : Config :=
  if c.loop.isSome then c
  else if c.st.status = .Cancelled ∨ c.st.queue.length = 0 then
    { c with
      st := setStatus c.st (if c.st.status = .Cancelled then .Cancelled else .Idle) }
  else
    { st := setStatus c.st .Processing
      loop := some { gen := c.st.version, pos := .atTop } }

/-- Insertion position, `'front' | 'end'` in the source. -/
inductive Position
  | front
  | atEnd
deriving DecidableEq, Repr

/-- `if (this._status === QueueStatus.Idle) this.startRunner()` — the tail
shared by every insertion path of `enqueue`. -/
def startIfIdle (c : Config) : Config :=
  if c.st.status = .Idle then startRunner c else c

/-- Insert the new entry at the requested end, then start the runner when
the status is `Idle`. -/
def insertEntry (c : Config) (task : Task) (position : Position)
    (dedupeKey : Option String) : Config :=
  startIfIdle
    { c with st :=
        if position = .front then
          { c.st with queue := { task := task, key := dedupeKey } :: c.st.queue }
        else
          { c.st with queue := c.st.queue ++ [{ task := task, key := dedupeKey }] } }

/-- The auto-resurrect block at the top of `enqueue`: bump the generation
and set status back to `Idle` directly, notifying. -/
def resurrectIfCancelled (c : Config) : Config :=
  if c.st.status = .Cancelled then
    { c with
      st := { c.st with
        version := c.st.version + 1
        status := .Idle
        events := .Idle :: c.st.events } }
  else c

/-- The part of `enqueue` after the auto-resurrect block: the
adjacent-dedupe rule for back insertions with a truthy key, then insertion,
then starting the runner when idle. -/
def enqueueCore (c1 : Config) (task : Task) (position : Position)
    (dedupeKey : Option String) : Config :=
  if position = .atEnd ∧ truthy dedupeKey then
    if lastKeyOf c1.st = dedupeKey then
      if c1.st.status = .Idle ∧ c1.st.queue.length > 0 then startRunner c1 else c1
    else insertEntry c1 task position dedupeKey
  else insertEntry c1 task position dedupeKey

/-- `enqueue` from the source: resurrect a cancelled queue, apply the
adjacent-dedupe rule, insert, and start the runner when idle. -/
def enqueue (c : Config) (task : Task) (position : Position)
    (dedupeKey : Option String) : Config :=
  enqueueCore (resurrectIfCancelled c) task position dedupeKey

/-- `addTask(task, dedupeKey?)`. -/
def addTask (c : Config) (task : Task) (dedupeKey : Option String) : Config :=
  enqueue c task .atEnd dedupeKey

/-- `addNextTask(task)`. -/
def addNextTask (c : Config) (task : Task) : Config :=
  enqueue c task .front none

/-- `pauseQueue()`. -/
def pauseQueue (c : Config) : Config :=
  if c.st.status = .Processing then { c with st := setStatus c.st .Paused } else c

/-- The second `if` of `resumeQueue`: start the runner when idle work is
pending (covers work queued after the runner wound down). -/
def startIfIdlePending (c1 : Config) : Config :=
  if c1.st.status = .Idle ∧ c1.st.queue.length > 0 then startRunner c1 else c1

/-- `resumeQueue()`. -/
def resumeQueue (c : Config) : Config :=
  startIfIdlePending
    (if c.st.status = .Paused then
      resolveResume { c with st := setStatus { c.st with lastError := none } .Processing }
    else c)

/-- `cancelQueue()` (`setStatus` never changes `version`, so the bumped
generation is `c.st.version + 1`). -/
def cancelQueue (c : Config) : Config :=
  if c.st.status = .Cancelled then c
  else
    resolveResume
      { c with
        st := { setStatus c.st .Cancelled with
          queue := [], currentTaskKey := none, version := c.st.version + 1 } }

/-- `clearQueue()`: the pending collection is emptied in both branches, and
emptying it does not change the status the guard reads. -/
def clearQueue (c : Config) : Config :=
  if ¬c.st.status = .Processing ∧ ¬c.st.status = .Paused ∧ ¬c.st.status = .Cancelled then
    { c with st := setStatus { c.st with queue := [], currentTaskKey := none } .Idle }
  else { c with st := { c.st with queue := ([] : List QueueEntry) } }

/-- `clearLastError()`. -/
def clearLastError (c : Config) : Config :=
  { c with st := { c.st with lastError := none } }

/-- The code after the `while` loop of `processLoop`: only the active
generation may set the final status; a drained live loop sets `Idle`.  The
`.finally` that clears `runner` is a separate pending step (`finished`). -/
def finalizeLoop (s : QueueState) (gen : Nat) : Config :=
  if s.version ≠ gen then { st := s, loop := some { gen := gen, pos := .finished } }
  else if s.status = .Cancelled then
    { st := s, loop := some { gen := gen, pos := .finished } }
  else { st := setStatus s .Idle, loop := some { gen := gen, pos := .finished } }

/-- One resumption of the `processLoop` coroutine: runs the synchronous code
between two `await` points (or from an `await` to the body's return). -/
def loopStep (c : Config) : Config :=
  match c.loop with
  | none => c
  | some l =>
    match l.pos with
    | .finished => { c with loop := none }
    | .blocked released =>
      if released then { c with loop := some { l with pos := .atTop } } else c
    | .atTop =>
      if c.st.status = .Cancelled ∨ c.st.version ≠ l.gen then
        finalizeLoop c.st l.gen
      else if c.st.status = .Paused then
        { st := { c.st with resumeResolve := true }
          loop := some { l with pos := .blocked false } }
      else
        match c.st.queue with
        | [] => finalizeLoop c.st l.gen
        | entry :: rest =>
          if c.st.status = .Cancelled ∨ c.st.version ≠ l.gen then
            finalizeLoop { c.st with queue := rest } l.gen
          else
            { st := { c.st with
                queue := rest
                currentTaskKey := entry.key
                executed := c.st.executed ++ [entry.task.id] }
              loop := some { l with pos := .inTask entry } }
    | .inTask entry =>
      match entry.task.outcome with
      | .ok =>
        { st := { c.st with currentTaskKey := none }
          loop := some { l with pos := .atTop } }
      | .fail thrown =>
        if c.st.pauseOnError then
          { st := { setStatus { c.st with
                      currentTaskKey := none
                      lastError := some (wrapThrown thrown) } .Paused
                    with resumeResolve := true }
            loop := some { l with pos := .blocked false } }
        else
          { st := { c.st with currentTaskKey := none }
            loop := some { l with pos := .atTop } }

/-- Iterate `loopStep` a given number of times (fuel-based scheduler). -/
def runSteps : Nat → Config → Config
  | 0, c => c
  | n + 1, c => runSteps n (loopStep c)

/-- Perform a list of `addTask` submissions in order. -/
def submitAll (c : Config) : List (Task × Option String) → Config
  | [] => c
  | (t, k) :: rest => submitAll (addTask c t k) rest

/-- One atomic step of the whole system: a public operation invoked by the
embedding application, or one resumption of the runner coroutine. -/
inductive SysStep : Config → Config → Prop
  | add (c : Config) (t : Task) (k : Option String) : SysStep c (addTask c t k)
  | addNext (c : Config) (t : Task) : SysStep c (addNextTask c t)
  | pause (c : Config) : SysStep c (pauseQueue c)
  | resume (c : Config) : SysStep c (resumeQueue c)
  | cancel (c : Config) : SysStep c (cancelQueue c)
  | clear (c : Config) : SysStep c (clearQueue c)
  | clearErr (c : Config) : SysStep c (clearLastError c)
  | loop (c : Config) : SysStep c (loopStep c)

/-- Configurations reachable from a freshly constructed queue by any
interleaving of public operations and runner steps. -/
inductive Reachable : Config → Prop
  | start (b : Bool) : Reachable (mkQueue b)
  | step {c c2 : Config} : Reachable c → SysStep c c2 → Reachable c2

/-! ### Frame lemmas: which fields each helper leaves untouched -/

@[simp] theorem setStatus_queue (s : QueueState) (next : QueueStatus) :
    (setStatus s next).queue = s.queue := by
  unfold setStatus
  split <;> rfl

@[simp] theorem setStatus_resumeResolve (s : QueueState) (next : QueueStatus) :
    (setStatus s next).resumeResolve = s.resumeResolve := by
  unfold setStatus
  split <;> rfl

@[simp] theorem setStatus_lastError (s : QueueState) (next : QueueStatus) :
    (setStatus s next).lastError = s.lastError := by
  unfold setStatus
  split <;> rfl

@[simp] theorem setStatus_pauseOnError (s : QueueState) (next : QueueStatus) :
    (setStatus s next).pauseOnError = s.pauseOnError := by
  unfold setStatus
  split <;> rfl

@[simp] theorem setStatus_currentTaskKey (s : QueueState) (next : QueueStatus) :
    (setStatus s next).currentTaskKey = s.currentTaskKey := by
  unfold setStatus
  split <;> rfl

@[simp] theorem setStatus_version (s : QueueState) (next : QueueStatus) :
    (setStatus s next).version = s.version := by
  unfold setStatus
  split <;> rfl

@[simp] theorem setStatus_executed (s : QueueState) (next : QueueStatus) :
    (setStatus s next).executed = s.executed := by
  unfold setStatus
  split <;> rfl

theorem setStatus_status_of_ne {s : QueueState} {next : QueueStatus}
    (h : s.status ≠ next) : (setStatus s next).status = next := by
  unfold setStatus
  rw [if_pos h]

theorem setStatus_events_of_ne {s : QueueState} {next : QueueStatus}
    (h : s.status ≠ next) : (setStatus s next).events = next :: s.events := by
  unfold setStatus
  rw [if_pos h]

theorem setStatus_self {s : QueueState} {next : QueueStatus}
    (h : s.status = next) : setStatus s next = s := by
  unfold setStatus
  rw [if_neg (by simp [h])]

@[simp] theorem startRunner_queue (c : Config) :
    (startRunner c).st.queue = c.st.queue := by
  unfold startRunner
  split
  · rfl
  · split <;> simp

@[simp] theorem startRunner_resumeResolve (c : Config) :
    (startRunner c).st.resumeResolve = c.st.resumeResolve := by
  unfold startRunner
  split
  · rfl
  · split <;> simp

@[simp] theorem startRunner_lastError (c : Config) :
    (startRunner c).st.lastError = c.st.lastError := by
  unfold startRunner
  split
  · rfl
  · split <;> simp

@[simp] theorem startRunner_pauseOnError (c : Config) :
    (startRunner c).st.pauseOnError = c.st.pauseOnError := by
  unfold startRunner
  split
  · rfl
  · split <;> simp

@[simp] theorem startRunner_currentTaskKey (c : Config) :
    (startRunner c).st.currentTaskKey = c.st.currentTaskKey := by
  unfold startRunner
  split
  · rfl
  · split <;> simp

@[simp] theorem startRunner_version (c : Config) :
    (startRunner c).st.version = c.st.version := by
  unfold startRunner
  split
  · rfl
  · split <;> simp

@[simp] theorem startRunner_executed (c : Config) :
    (startRunner c).st.executed = c.st.executed := by
  unfold startRunner
  split
  · rfl
  · split <;> simp

@[simp] theorem startIfIdle_queue (c : Config) :
    (startIfIdle c).st.queue = c.st.queue := by
  unfold startIfIdle
  split <;> simp

@[simp] theorem startIfIdle_resumeResolve (c : Config) :
    (startIfIdle c).st.resumeResolve = c.st.resumeResolve := by
  unfold startIfIdle
  split <;> simp

@[simp] theorem startIfIdle_lastError (c : Config) :
    (startIfIdle c).st.lastError = c.st.lastError := by
  unfold startIfIdle
  split <;> simp

@[simp] theorem startIfIdle_pauseOnError (c : Config) :
    (startIfIdle c).st.pauseOnError = c.st.pauseOnError := by
  unfold startIfIdle
  split <;> simp

@[simp] theorem startIfIdle_currentTaskKey (c : Config) :
    (startIfIdle c).st.currentTaskKey = c.st.currentTaskKey := by
  unfold startIfIdle
  split <;> simp

@[simp] theorem startIfIdle_version (c : Config) :
    (startIfIdle c).st.version = c.st.version := by
  unfold startIfIdle
  split <;> simp

@[simp] theorem startIfIdle_executed (c : Config) :
    (startIfIdle c).st.executed = c.st.executed := by
  unfold startIfIdle
  split <;> simp

@[simp] theorem startIfIdlePending_lastError (c : Config) :
    (startIfIdlePending c).st.lastError = c.st.lastError := by
  unfold startIfIdlePending
  split <;> simp

@[simp] theorem startIfIdlePending_queue (c : Config) :
    (startIfIdlePending c).st.queue = c.st.queue := by
  unfold startIfIdlePending
  split <;> simp

@[simp] theorem resolveResume_queue (c : Config) :
    (resolveResume c).st.queue = c.st.queue := by
  unfold resolveResume
  split <;> rfl

@[simp] theorem resolveResume_status (c : Config) :
    (resolveResume c).st.status = c.st.status := by
  unfold resolveResume
  split <;> rfl

@[simp] theorem resolveResume_events (c : Config) :
    (resolveResume c).st.events = c.st.events := by
  unfold resolveResume
  split <;> rfl

@[simp] theorem resolveResume_lastError (c : Config) :
    (resolveResume c).st.lastError = c.st.lastError := by
  unfold resolveResume
  split <;> rfl

@[simp] theorem resolveResume_currentTaskKey (c : Config) :
    (resolveResume c).st.currentTaskKey = c.st.currentTaskKey := by
  unfold resolveResume
  split <;> rfl

@[simp] theorem resolveResume_version (c : Config) :
    (resolveResume c).st.version = c.st.version := by
  unfold resolveResume
  split <;> rfl

@[simp] theorem resolveResume_executed (c : Config) :
    (resolveResume c).st.executed = c.st.executed := by
  unfold resolveResume
  split <;> rfl

@[simp] theorem resolveResume_pauseOnError (c : Config) :
    (resolveResume c).st.pauseOnError = c.st.pauseOnError := by
  unfold resolveResume
  split <;> rfl

@[simp] theorem resurrectIfCancelled_queue (c : Config) :
    (resurrectIfCancelled c).st.queue = c.st.queue := by
  unfold resurrectIfCancelled
  split <;> rfl

@[simp] theorem resurrectIfCancelled_resumeResolve (c : Config) :
    (resurrectIfCancelled c).st.resumeResolve = c.st.resumeResolve := by
  unfold resurrectIfCancelled
  split <;> rfl

@[simp] theorem resurrectIfCancelled_lastError (c : Config) :
    (resurrectIfCancelled c).st.lastError = c.st.lastError := by
  unfold resurrectIfCancelled
  split <;> rfl

@[simp] theorem resurrectIfCancelled_pauseOnError (c : Config) :
    (resurrectIfCancelled c).st.pauseOnError = c.st.pauseOnError := by
  unfold resurrectIfCancelled
  split <;> rfl

@[simp] theorem resurrectIfCancelled_currentTaskKey (c : Config) :
    (resurrectIfCancelled c).st.currentTaskKey = c.st.currentTaskKey := by
  unfold resurrectIfCancelled
  split <;> rfl

@[simp] theorem resurrectIfCancelled_executed (c : Config) :
    (resurrectIfCancelled c).st.executed = c.st.executed := by
  unfold resurrectIfCancelled
  split <;> rfl

@[simp] theorem insertEntry_queue (c : Config) (t : Task) (p : Position)
    (k : Option String) :
    (insertEntry c t p k).st.queue =
      (if p = Position.front then { task := t, key := k } :: c.st.queue
       else c.st.queue ++ [{ task := t, key := k }]) := by
  unfold insertEntry
  split <;> simp

@[simp] theorem insertEntry_lastError (c : Config) (t : Task) (p : Position)
    (k : Option String) : (insertEntry c t p k).st.lastError = c.st.lastError := by
  unfold insertEntry
  split <;> simp

@[simp] theorem insertEntry_resumeResolve (c : Config) (t : Task) (p : Position)
    (k : Option String) : (insertEntry c t p k).st.resumeResolve = c.st.resumeResolve := by
  unfold insertEntry
  split <;> simp

@[simp] theorem insertEntry_currentTaskKey (c : Config) (t : Task) (p : Position)
    (k : Option String) : (insertEntry c t p k).st.currentTaskKey = c.st.currentTaskKey := by
  unfold insertEntry
  split <;> simp

@[simp] theorem insertEntry_version (c : Config) (t : Task) (p : Position)
    (k : Option String) : (insertEntry c t p k).st.version = c.st.version := by
  unfold insertEntry
  split <;> simp

@[simp] theorem insertEntry_executed (c : Config) (t : Task) (p : Position)
    (k : Option String) : (insertEntry c t p k).st.executed = c.st.executed := by
  unfold insertEntry
  split <;> simp

/-! ### The notification-log invariant (claim C2 machinery)

`EventInv` ties the recorded `onStatusChange` invocations to the live
status: the most recent notification always carries the current status, no
two consecutive notifications carry the same value, and the oldest
notification is the constructor's initial `Idle`. -/

/-- Invariant on the notification log (`events` is newest first). -/
def EventInv (s : QueueState) : Prop :=
  s.events.head? = some s.status ∧
  s.events.Chain' (fun a b => a ≠ b) ∧
  s.events.getLast? = some QueueStatus.Idle

theorem eventInv_of_eq {s s2 : QueueState} (h : EventInv s)
    (he : s2.events = s.events) (hs : s2.status = s.status) : EventInv s2 := by
  unfold EventInv at h ⊢
  rw [he, hs]
  exact h

theorem eventInv_push {s : QueueState} (h : EventInv s) {next : QueueStatus}
    (hne : s.status ≠ next) {s2 : QueueState}
    (he : s2.events = next :: s.events) (hs : s2.status = next) : EventInv s2 := by
  obtain ⟨hhead, hchain, hlast⟩ := h
  rcases hev : s.events with _ | ⟨x, rest⟩
  · rw [hev] at hhead
    simp at hhead
  · rw [hev] at hhead hchain hlast
    have hx : x = s.status := by simpa using hhead
    refine ⟨?_, ?_, ?_⟩
    · rw [he, hs]
      rfl
    · rw [he, hev, List.chain'_cons]
      exact ⟨by rw [hx]; exact fun hcon => hne hcon.symm, hchain⟩
    · rw [he, hev, List.getLast?_cons_cons]
      exact hlast

theorem eventInv_setStatus {s : QueueState} (h : EventInv s) (next : QueueStatus) :
    EventInv (setStatus s next) := by
  unfold setStatus
  split
  · exact eventInv_push h (by assumption) rfl rfl
  · exact h

theorem eventInv_resolveResume {c : Config} (h : EventInv c.st) :
    EventInv (resolveResume c).st := by
  unfold resolveResume
  split
  · exact eventInv_of_eq h rfl rfl
  · exact h

theorem eventInv_startRunner {c : Config} (h : EventInv c.st) :
    EventInv (startRunner c).st := by
  unfold startRunner
  split
  · exact h
  · split
    · exact eventInv_setStatus h _
    · exact eventInv_setStatus h _

theorem eventInv_startIfIdle {c : Config} (h : EventInv c.st) :
    EventInv (startIfIdle c).st := by
  unfold startIfIdle
  split
  · exact eventInv_startRunner h
  · exact h

theorem eventInv_insertEntry {c : Config} (h : EventInv c.st) (t : Task)
    (p : Position) (k : Option String) : EventInv (insertEntry c t p k).st := by
  unfold insertEntry
  apply eventInv_startIfIdle
  show EventInv (if p = Position.front then _ else _)
  split
  · exact eventInv_of_eq h rfl rfl
  · exact eventInv_of_eq h rfl rfl

theorem eventInv_resurrectIfCancelled {c : Config} (h : EventInv c.st) :
    EventInv (resurrectIfCancelled c).st := by
  unfold resurrectIfCancelled
  split
  · next hc => exact eventInv_push h (by rw [hc]; simp) rfl rfl
  · exact h

theorem eventInv_enqueueCore {c : Config} (h : EventInv c.st) (t : Task)
    (p : Position) (k : Option String) : EventInv (enqueueCore c t p k).st := by
  unfold enqueueCore
  split
  · split
    · split
      · exact eventInv_startRunner h
      · exact h
    · exact eventInv_insertEntry h t p k
  · exact eventInv_insertEntry h t p k

theorem eventInv_enqueue {c : Config} (h : EventInv c.st) (t : Task)
    (p : Position) (k : Option String) : EventInv (enqueue c t p k).st :=
  eventInv_enqueueCore (eventInv_resurrectIfCancelled h) t p k

theorem eventInv_addTask {c : Config} (h : EventInv c.st) (t : Task)
    (k : Option String) : EventInv (addTask c t k).st :=
  eventInv_enqueue h t _ k

theorem eventInv_addNextTask {c : Config} (h : EventInv c.st) (t : Task) :
    EventInv (addNextTask c t).st :=
  eventInv_enqueue h t _ none

theorem eventInv_pauseQueue {c : Config} (h : EventInv c.st) :
    EventInv (pauseQueue c).st := by
  unfold pauseQueue
  split
  · exact eventInv_setStatus h _
  · exact h

theorem eventInv_startIfIdlePending {c : Config} (h : EventInv c.st) :
    EventInv (startIfIdlePending c).st := by
  unfold startIfIdlePending
  split
  · exact eventInv_startRunner h
  · exact h

theorem eventInv_resumeQueue {c : Config} (h : EventInv c.st) :
    EventInv (resumeQueue c).st := by
  unfold resumeQueue
  apply eventInv_startIfIdlePending
  split
  · apply eventInv_resolveResume
    show EventInv (setStatus { c.st with lastError := none } QueueStatus.Processing)
    apply eventInv_setStatus
    exact eventInv_of_eq h rfl rfl
  · exact h

theorem eventInv_cancelQueue {c : Config} (h : EventInv c.st) :
    EventInv (cancelQueue c).st := by
  unfold cancelQueue
  split
  · exact h
  · apply eventInv_resolveResume
    exact eventInv_of_eq (eventInv_setStatus h QueueStatus.Cancelled) rfl rfl

theorem eventInv_clearQueue {c : Config} (h : EventInv c.st) :
    EventInv (clearQueue c).st := by
  unfold clearQueue
  split
  · show EventInv (setStatus { c.st with queue := [], currentTaskKey := none } QueueStatus.Idle)
    apply eventInv_setStatus
    exact eventInv_of_eq h rfl rfl
  · exact eventInv_of_eq h rfl rfl

theorem eventInv_clearLastError {c : Config} (h : EventInv c.st) :
    EventInv (clearLastError c).st :=
  eventInv_of_eq h rfl rfl

theorem eventInv_finalizeLoop {s : QueueState} (h : EventInv s) (g : Nat) :
    EventInv (finalizeLoop s g).st := by
  unfold finalizeLoop
  split
  · exact h
  · split
    · exact h
    · exact eventInv_setStatus h _

theorem eventInv_fail_pause {s : QueueState} (h : EventInv s) (e : Option Err) :
    EventInv { setStatus { s with
        currentTaskKey := none
        lastError := e } QueueStatus.Paused with resumeResolve := true } := by
  have h1 : EventInv { s with currentTaskKey := none, lastError := e } :=
    eventInv_of_eq h rfl rfl
  have h2 := eventInv_setStatus h1 QueueStatus.Paused
  exact eventInv_of_eq h2 rfl rfl

theorem eventInv_loopStep {c : Config} (h : EventInv c.st) :
    EventInv (loopStep c).st := by
  rcases hl : c.loop with _ | ⟨g, pos⟩
  · simp only [loopStep, hl]
    exact h
  · rcases pos with _ | released | entry | _
    · simp only [loopStep, hl]
      split
      · exact eventInv_finalizeLoop h g
      · split
        · exact eventInv_of_eq h rfl rfl
        · rcases hq : c.st.queue with _ | ⟨entry, rest⟩
          · exact eventInv_finalizeLoop h g
          · exact eventInv_of_eq h rfl rfl
    · simp only [loopStep, hl]
      split
      · exact eventInv_of_eq h rfl rfl
      · exact h
    · rcases hout : entry.task.outcome with _ | thrown
      · simp only [loopStep, hl, hout]
        exact eventInv_of_eq h rfl rfl
      · simp only [loopStep, hl, hout]
        split
        · exact eventInv_fail_pause h (some (wrapThrown thrown))
        · exact eventInv_of_eq h rfl rfl
    · simp only [loopStep, hl]
      exact h

theorem eventInv_mkQueue (b : Bool) : EventInv (mkQueue b).st := by
  refine ⟨rfl, ?_, rfl⟩
  simp [mkQueue, initState]

theorem eventInv_reachable {c : Config} (h : Reachable c) : EventInv c.st := by
  induction h with
  | start b => exact eventInv_mkQueue b
  | step hr hs ih =>
    cases hs with
    | add t k => exact eventInv_addTask ih t k
    | addNext t => exact eventInv_addNextTask ih t
    | pause => exact eventInv_pauseQueue ih
    | resume => exact eventInv_resumeQueue ih
    | cancel => exact eventInv_cancelQueue ih
    | clear => exact eventInv_clearQueue ih
    | clearErr => exact eventInv_clearLastError ih
    | loop => exact eventInv_loopStep ih

/-- `enqueue` never touches the last-error slot. -/
theorem enqueue_lastError (c : Config) (t : Task) (p : Position) (k : Option String) :
    (enqueue c t p k).st.lastError = c.st.lastError := by
  unfold enqueue enqueueCore
  split
  · split
    · split <;> simp
    · simp
  · simp

@[simp] theorem finalizeLoop_lastError (s : QueueState) (g : Nat) :
    (finalizeLoop s g).st.lastError = s.lastError := by
  unfold finalizeLoop
  split
  · rfl
  · split <;> simp

/-- `resurrectIfCancelled` does not move the key the dedupe check reads. -/
theorem lastKeyOf_resurrectIfCancelled (c : Config) :
    lastKeyOf (resurrectIfCancelled c).st = lastKeyOf c.st := by
  unfold lastKeyOf
  rw [resurrectIfCancelled_queue, resurrectIfCancelled_currentTaskKey]

/-- When the status is not `Cancelled`, the resurrect block does nothing. -/
theorem resurrectIfCancelled_of_ne {c : Config}
    (h : c.st.status ≠ QueueStatus.Cancelled) : resurrectIfCancelled c = c := by
  unfold resurrectIfCancelled
  rw [if_neg h]

/-! ### Concrete tasks used by the claim theorems -/

/-- A task whose body succeeds. -/
def taskOk (n : Nat) : Task :=
  { id := n, outcome := .ok }

/-- A task whose body throws a non-`Error` value (a bare string). -/
def taskThrowStr (n : Nat) (s : String) : Task :=
  { id := n, outcome := .fail (.other s) }

/-- A task whose body throws an `Error` object. -/
def taskThrowErr (n : Nat) (s : String) : Task :=
  { id := n, outcome := .fail (.errObj { message := s }) }

def strBoom : String := "boom"
def strK : String := "k"
def strJ : String := "j"
def strEmpty : String := ""

/-! ### Claim theorems -/

/-- C1: the claim states that after `cancelQueue()` no status mutation from
the pre-cancellation execution context is ever observed, in particular no
transition to `Paused`, even when `pauseOnError` is enabled and the
in-flight task fails.  The code violates this: with `pauseOnError` enabled,
enqueue a task that throws, let the loop pull it, cancel while it is in
flight (generation moves to 1, loop captured 0, status `Cancelled`), and
let the task fail — the catch block calls `setStatus(Paused)` without any
generation check, so the stale loop flips status `Cancelled → Paused` and
fires a `Paused` notification after the `Cancelled` one. -/
theorem claim1_stale_loop_flips_status_after_cancel :
    (cancelQueue (loopStep (addTask (mkQueue true) (taskThrowStr 0 strBoom) none))).st.status
        = QueueStatus.Cancelled ∧
    (cancelQueue (loopStep (addTask (mkQueue true) (taskThrowStr 0 strBoom) none))).st.version
        = 1 ∧
    (cancelQueue (loopStep (addTask (mkQueue true) (taskThrowStr 0 strBoom) none))).loop
        = some { gen := 0, pos := .inTask { task := taskThrowStr 0 strBoom, key := none } } ∧
    (loopStep (cancelQueue (loopStep
        (addTask (mkQueue true) (taskThrowStr 0 strBoom) none)))).st.status
        = QueueStatus.Paused ∧
    (loopStep (cancelQueue (loopStep
        (addTask (mkQueue true) (taskThrowStr 0 strBoom) none)))).st.events
        = [QueueStatus.Paused, QueueStatus.Cancelled, QueueStatus.Processing,
           QueueStatus.Idle] := by
  decide

/-- C2: over every reachable configuration (any interleaving of the public
operations and runner steps, starting from the constructor), the recorded
`onStatusChange` invocations never contain the same status twice in a row;
moreover the newest notification always carries the current status and the
oldest is the single initial `Idle` fired at construction. -/
theorem claim2_no_duplicate_notifications {c : Config} (h : Reachable c) :
    c.st.events.Chain' (fun a b => a ≠ b) ∧
    c.st.events.head? = some c.st.status ∧
    c.st.events.getLast? = some QueueStatus.Idle := by
  obtain ⟨h1, h2, h3⟩ := eventInv_reachable h
  exact ⟨h2, h1, h3⟩

/-- Witness for C2 at a concrete reachable configuration. -/
theorem claim2_no_duplicate_notifications_witness :
    (cancelQueue (pauseQueue (addTask (mkQueue false) (taskOk 0) none))).st.events.Chain'
        (fun a b => a ≠ b) ∧
    (cancelQueue (pauseQueue (addTask (mkQueue false) (taskOk 0) none))).st.events.head?
        = some (cancelQueue (pauseQueue (addTask (mkQueue false) (taskOk 0) none))).st.status ∧
    (cancelQueue (pauseQueue (addTask (mkQueue false) (taskOk 0) none))).st.events.getLast?
        = some QueueStatus.Idle :=
  claim2_no_duplicate_notifications
    (Reachable.step
      (Reachable.step
        (Reachable.step (Reachable.start false) (SysStep.add _ (taskOk 0) none))
        (SysStep.pause _))
      (SysStep.cancel _))

/-- C7: with `pauseOnError` enabled, a task that throws the bare string
"boom" is captured into `lastTaskError` as an error whose message is that
string, status becomes `Paused`, and `resumeQueue` clears the error back to
`null` while leaving the paused state; the next task then runs and the
queue drains to `Idle`.  With `pauseOnError` disabled, the same failure
leaves `lastTaskError` as `null` and the loop continues to the next entry. -/
theorem claim7_pause_on_error_boom :
    (runSteps 2 (addTask (addTask (mkQueue true) (taskThrowStr 0 strBoom) none)
        (taskOk 1) none)).st.status = QueueStatus.Paused ∧
    (runSteps 2 (addTask (addTask (mkQueue true) (taskThrowStr 0 strBoom) none)
        (taskOk 1) none)).st.lastError = some { message := strBoom } ∧
    (resumeQueue (runSteps 2 (addTask (addTask (mkQueue true)
        (taskThrowStr 0 strBoom) none) (taskOk 1) none))).st.lastError = none ∧
    (resumeQueue (runSteps 2 (addTask (addTask (mkQueue true)
        (taskThrowStr 0 strBoom) none) (taskOk 1) none))).st.status
        = QueueStatus.Processing ∧
    (runSteps 5 (resumeQueue (runSteps 2 (addTask (addTask (mkQueue true)
        (taskThrowStr 0 strBoom) none) (taskOk 1) none)))).st.status
        = QueueStatus.Idle ∧
    (runSteps 5 (resumeQueue (runSteps 2 (addTask (addTask (mkQueue true)
        (taskThrowStr 0 strBoom) none) (taskOk 1) none)))).st.executed = [0, 1] ∧
    (runSteps 2 (addTask (addTask (mkQueue false) (taskThrowStr 0 strBoom) none)
        (taskOk 1) none)).st.lastError = none ∧
    (runSteps 6 (addTask (addTask (mkQueue false) (taskThrowStr 0 strBoom) none)
        (taskOk 1) none)).st.lastError = none ∧
    (runSteps 6 (addTask (addTask (mkQueue false) (taskThrowStr 0 strBoom) none)
        (taskOk 1) none)).st.status = QueueStatus.Idle ∧
    (runSteps 6 (addTask (addTask (mkQueue false) (taskThrowStr 0 strBoom) none)
        (taskOk 1) none)).st.executed = [0, 1] := by
  decide

/-- C4: `cancelQueue` is idempotent — a no-op (not even a notification)
when already `Cancelled`; otherwise it sets status to `Cancelled` firing
exactly one notification, empties the pending collection, clears the
current-task-key marker, increments the generation token, and releases a
loop blocked on the resume signal. -/
theorem claim4_cancel_idempotent (c : Config) :
    (c.st.status = QueueStatus.Cancelled → cancelQueue c = c) ∧
    (c.st.status ≠ QueueStatus.Cancelled →
      (cancelQueue c).st.status = QueueStatus.Cancelled ∧
      (cancelQueue c).st.events = QueueStatus.Cancelled :: c.st.events ∧
      (cancelQueue c).st.queue = [] ∧
      (cancelQueue c).st.currentTaskKey = none ∧
      (cancelQueue c).st.version = c.st.version + 1 ∧
      (cancelQueue c).st.resumeResolve = false ∧
      (∀ g r, c.st.resumeResolve = true →
        c.loop = some { gen := g, pos := LoopPos.blocked r } →
        (cancelQueue c).loop = some { gen := g, pos := LoopPos.blocked true })) := by
  constructor
  · intro hc
    unfold cancelQueue
    rw [if_pos hc]
  · intro hc
    unfold cancelQueue
    rw [if_neg hc]
    refine ⟨?_, ?_, ?_, ?_, ?_, ?_, ?_⟩
    · rw [resolveResume_status]
      exact setStatus_status_of_ne hc
    · rw [resolveResume_events]
      exact setStatus_events_of_ne hc
    · rw [resolveResume_queue]
    · rw [resolveResume_currentTaskKey]
    · rw [resolveResume_version]
    · unfold resolveResume
      split
      · rfl
      · next hr =>
        simp only [Bool.not_eq_true] at hr
        simpa using hr
    · intro g r h1 h2
      unfold resolveResume
      rw [if_pos (by simpa using h1)]
      simp [h2]

/-- Witness for C4 at a concrete non-cancelled configuration whose runner
is blocked on the resume signal. -/
theorem claim4_cancel_idempotent_witness :
    (cancelQueue (runSteps 2 (addTask (addTask (mkQueue true)
        (taskThrowStr 0 strBoom) none) (taskOk 1) none))).st.status
      = QueueStatus.Cancelled ∧
    (cancelQueue (runSteps 2 (addTask (addTask (mkQueue true)
        (taskThrowStr 0 strBoom) none) (taskOk 1) none))).loop
      = some { gen := 0, pos := LoopPos.blocked true } ∧
    (cancelQueue (cancelQueue (runSteps 2 (addTask (addTask (mkQueue true)
        (taskThrowStr 0 strBoom) none) (taskOk 1) none))))
      = cancelQueue (runSteps 2 (addTask (addTask (mkQueue true)
        (taskThrowStr 0 strBoom) none) (taskOk 1) none)) := by
  refine ⟨?_, ?_, ?_⟩
  · exact ((claim4_cancel_idempotent _).2 (by decide)).1
  · exact ((claim4_cancel_idempotent _).2 (by decide)).2.2.2.2.2.2 0 false
      (by decide) (by decide)
  · exact (claim4_cancel_idempotent _).1
      (((claim4_cancel_idempotent _).2 (by decide)).1)

/-- C9: an absent dedupe key or the empty-string key never suppresses an
insertion, because the key is tested for truthiness before any comparison:
the entry is appended unconditionally whatever the last pending or
in-flight key is. -/
theorem claim9_untruthy_key_always_inserted (c : Config) (t : Task)
    (k : Option String) (hk : truthy k = false) :
    (addTask c t k).st.queue = c.st.queue ++ [{ task := t, key := k }] := by
  unfold addTask enqueue enqueueCore
  rw [if_neg (by simp [hk])]
  rw [insertEntry_queue]
  rw [if_neg (by simp)]
  rw [resurrectIfCancelled_queue]

/-- Witness for C9: an empty-string key identical to the key of the last
pending entry is still inserted. -/
theorem claim9_untruthy_key_always_inserted_witness :
    truthy (some strEmpty) = false ∧
    (addTask (addTask (mkQueue false) (taskOk 0) (some strEmpty)) (taskOk 1)
        (some strEmpty)).st.queue
      = (addTask (mkQueue false) (taskOk 0) (some strEmpty)).st.queue
        ++ [{ task := taskOk 1, key := some strEmpty }] :=
  ⟨by decide, claim9_untruthy_key_always_inserted _ _ _ (by decide)⟩

/-- C10: the last-error slot is left unchanged by `cancelQueue`,
`clearQueue`, `pauseQueue` and both submission operations; it is reset to
`null` by `clearLastError` and by `resumeQueue` exactly when the status is
`Paused`; and a runner step changes it only when a task fails while
`pauseOnError` is enabled, in which case it stores the wrapped thrown
value. -/
theorem claim10_last_error_frame (c : Config) :
    (cancelQueue c).st.lastError = c.st.lastError ∧
    (clearQueue c).st.lastError = c.st.lastError ∧
    (clearLastError c).st.lastError = none ∧
    (c.st.status = QueueStatus.Paused → (resumeQueue c).st.lastError = none) ∧
    (c.st.status ≠ QueueStatus.Paused →
      (resumeQueue c).st.lastError = c.st.lastError) ∧
    (pauseQueue c).st.lastError = c.st.lastError ∧
    (∀ t k, (addTask c t k).st.lastError = c.st.lastError) ∧
    (∀ t, (addNextTask c t).st.lastError = c.st.lastError) ∧
    ((loopStep c).st.lastError ≠ c.st.lastError →
      ∃ g e th, c.loop = some { gen := g, pos := LoopPos.inTask e } ∧
        e.task.outcome = Outcome.fail th ∧
        c.st.pauseOnError = true ∧
        (loopStep c).st.lastError = some (wrapThrown th)) := by
  refine ⟨?_, ?_, rfl, ?_, ?_, ?_, ?_, ?_, ?_⟩
  · unfold cancelQueue
    split
    · rfl
    · simp
  · unfold clearQueue
    split <;> simp
  · intro hp
    unfold resumeQueue
    rw [if_pos hp]
    simp
  · intro hp
    unfold resumeQueue
    rw [if_neg hp]
    simp
  · unfold pauseQueue
    split <;> simp
  · intro t k
    exact enqueue_lastError c t Position.atEnd k
  · intro t
    exact enqueue_lastError c t Position.front none
  · intro hne
    rcases hl : c.loop with _ | ⟨g, pos⟩
    · exact absurd (by simp [loopStep, hl]) hne
    · rcases pos with _ | released | entry | _
      · exfalso
        apply hne
        simp only [loopStep, hl]
        split
        · simp
        · split
          · rfl
          · rcases hq : c.st.queue with _ | ⟨e, rest⟩
            · simp
            · split
              · simp
              · rfl
      · exfalso
        apply hne
        simp only [loopStep, hl]
        split <;> rfl
      · rcases hout : entry.task.outcome with _ | thrown
        · exact absurd (by simp [loopStep, hl, hout]) hne
        · by_cases hp : c.st.pauseOnError = true
          · refine ⟨g, entry, thrown, rfl, hout, hp, ?_⟩
            simp [loopStep, hl, hout, hp]
          · exfalso
            apply hne
            simp only [Bool.not_eq_true] at hp
            simp [loopStep, hl, hout, hp]
      · exact absurd (by simp [loopStep, hl]) hne

/-- Witness for C10 at a concrete paused configuration carrying an error. -/
theorem claim10_last_error_frame_witness :
    (resumeQueue (runSteps 2 (addTask (addTask (mkQueue true)
        (taskThrowStr 0 strBoom) none) (taskOk 1) none))).st.lastError = none ∧
    (cancelQueue (runSteps 2 (addTask (addTask (mkQueue true)
        (taskThrowStr 0 strBoom) none) (taskOk 1) none))).st.lastError
      = (runSteps 2 (addTask (addTask (mkQueue true)
        (taskThrowStr 0 strBoom) none) (taskOk 1) none)).st.lastError :=
  ⟨(claim10_last_error_frame _).2.2.2.1 (by decide),
   (claim10_last_error_frame _).1⟩

/-- C6: with a non-empty dedupe key `K`, `addTask` suppresses the insertion
exactly when `K` equals the key of the last pending entry (or, with an
empty pending collection, the key of the entry currently executing); it
still starts the runner when the status is `Idle` and other work is
pending; a differing compared key means the entry is appended at the back;
and `addNextTask` never dedupes.  Only the last pending entry is ever
compared, so non-adjacent repeats are not suppressed. -/
theorem claim6_adjacent_dedupe (c : Config) (t : Task) (K : String)
    (hK : K ≠ "") :
    (lastKeyOf c.st = some K →
      (addTask c t (some K)).st.queue = c.st.queue) ∧
    (lastKeyOf c.st ≠ some K →
      (addTask c t (some K)).st.queue
        = c.st.queue ++ [{ task := t, key := some K }]) ∧
    ((addNextTask c t).st.queue = { task := t, key := none } :: c.st.queue) ∧
    (lastKeyOf c.st = some K → c.st.status = QueueStatus.Idle →
      c.st.queue ≠ [] → c.loop = none →
      (addTask c t (some K)).st.status = QueueStatus.Processing ∧
      (addTask c t (some K)).loop
        = some { gen := c.st.version, pos := LoopPos.atTop }) := by
  have htr : truthy (some K) = true := by simp [truthy, hK]
  refine ⟨?_, ?_, ?_, ?_⟩
  · intro hmatch
    unfold addTask enqueue enqueueCore
    rw [if_pos ⟨rfl, htr⟩, lastKeyOf_resurrectIfCancelled, if_pos hmatch]
    split
    · rw [startRunner_queue, resurrectIfCancelled_queue]
    · rw [resurrectIfCancelled_queue]
  · intro hmatch
    unfold addTask enqueue enqueueCore
    rw [if_pos ⟨rfl, htr⟩, lastKeyOf_resurrectIfCancelled, if_neg hmatch]
    rw [insertEntry_queue, if_neg (by simp), resurrectIfCancelled_queue]
  · unfold addNextTask enqueue enqueueCore
    rw [if_neg (by simp)]
    rw [insertEntry_queue, if_pos rfl, resurrectIfCancelled_queue]
  · intro hmatch hidle hne hloop
    have hnc : c.st.status ≠ QueueStatus.Cancelled := by
      rw [hidle]
      exact fun hcon => QueueStatus.noConfusion hcon
    unfold addTask enqueue enqueueCore
    rw [resurrectIfCancelled_of_ne hnc]
    rw [if_pos ⟨rfl, htr⟩, if_pos hmatch]
    rw [if_pos ⟨hidle, List.length_pos.mpr hne⟩]
    unfold startRunner
    rw [if_neg (by rw [hloop]; simp)]
    rw [if_neg (by
      push_neg
      refine ⟨by rw [hidle]; exact fun hcon => QueueStatus.noConfusion hcon, ?_⟩
      exact fun h0 => hne (List.eq_nil_of_length_eq_zero h0))]
    constructor
    · exact setStatus_status_of_ne (by rw [hidle]; exact fun hcon => QueueStatus.noConfusion hcon)
    · rfl

/-- Witness for C6 at concrete inputs: a matching adjacent key is
suppressed, a differing key is appended, `addNextTask` still inserts, and
the runner starts when the queue is idle with other pending work. -/
theorem claim6_adjacent_dedupe_witness :
    (addTask (addTask (mkQueue false) (taskOk 0) (some strK)) (taskOk 1)
        (some strK)).st.queue
      = (addTask (mkQueue false) (taskOk 0) (some strK)).st.queue ∧
    (addTask (addTask (mkQueue false) (taskOk 0) (some strK)) (taskOk 1)
        (some strJ)).st.queue
      = (addTask (mkQueue false) (taskOk 0) (some strK)).st.queue
        ++ [{ task := taskOk 1, key := some strJ }] ∧
    (addNextTask (addTask (mkQueue false) (taskOk 0) (some strK))
        (taskOk 2)).st.queue
      = { task := taskOk 2, key := none }
        :: (addTask (mkQueue false) (taskOk 0) (some strK)).st.queue ∧
    (addTask
      { st := { queue := [{ task := taskOk 0, key := some strK }]
                status := QueueStatus.Idle
                resumeResolve := false
                lastError := none
                pauseOnError := false
                currentTaskKey := none
                version := 5
                events := [QueueStatus.Idle]
                executed := [] }
        loop := none } (taskOk 1) (some strK)).st.status
      = QueueStatus.Processing :=
  ⟨(claim6_adjacent_dedupe _ (taskOk 1) strK (by decide)).1 (by decide),
   (claim6_adjacent_dedupe _ (taskOk 1) strJ (by decide)).2.1 (by decide),
   (claim6_adjacent_dedupe _ (taskOk 2) strK (by decide)).2.2.1,
   ((claim6_adjacent_dedupe _ (taskOk 1) strK (by decide)).2.2.2 (by decide)
      (by decide) (by decide) (by decide)).1⟩

/-- C8: an `addNextTask` call made while another task is executing inserts
its entry ahead of every previously pending entry, leaves the in-flight
task untouched (no preemption), and the new task is the very next one the
runner pulls and begins executing after the in-flight task completes. -/
theorem claim8_addNextTask_runs_next (c : Config) (t : Task) (e : QueueEntry)
    (g : Nat)
    (hloop : c.loop = some { gen := g, pos := LoopPos.inTask e })
    (hstatus : c.st.status = QueueStatus.Processing)
    (hgen : c.st.version = g)
    (hok : e.task.outcome = Outcome.ok) :
    (addNextTask c t).st.queue = { task := t, key := none } :: c.st.queue ∧
    (addNextTask c t).loop = some { gen := g, pos := LoopPos.inTask e } ∧
    (loopStep (loopStep (addNextTask c t))).st.executed
      = c.st.executed ++ [t.id] ∧
    (loopStep (loopStep (addNextTask c t))).loop
      = some { gen := g, pos := LoopPos.inTask { task := t, key := none } } := by
  have hnc : c.st.status ≠ QueueStatus.Cancelled := by
    rw [hstatus]
    exact fun hcon => QueueStatus.noConfusion hcon
  have hins : addNextTask c t
      = { c with st := { c.st with
            queue := { task := t, key := none } :: c.st.queue } } := by
    unfold addNextTask enqueue enqueueCore
    rw [resurrectIfCancelled_of_ne hnc, if_neg (by simp)]
    unfold insertEntry startIfIdle
    rw [if_pos rfl]
    rw [if_neg (by simp [hstatus])]
  refine ⟨by rw [hins], by rw [hins]; exact hloop, ?_, ?_⟩
  · rw [hins]
    simp [loopStep, hloop, hok, hstatus, hgen]
  · rw [hins]
    simp [loopStep, hloop, hok, hstatus, hgen]

/-- Witness for C8: with task 0 in flight and task 5 pending, a priority
submission of task 9 runs right after task 0 and before task 5. -/
theorem claim8_addNextTask_runs_next_witness :
    (addNextTask (loopStep (addTask (addTask (mkQueue false) (taskOk 0) none)
        (taskOk 5) none)) (taskOk 9)).st.queue
      = { task := taskOk 9, key := none }
        :: (loopStep (addTask (addTask (mkQueue false) (taskOk 0) none)
            (taskOk 5) none)).st.queue ∧
    (loopStep (loopStep (addNextTask (loopStep (addTask (addTask (mkQueue false)
        (taskOk 0) none) (taskOk 5) none)) (taskOk 9)))).st.executed
      = (loopStep (addTask (addTask (mkQueue false) (taskOk 0) none)
          (taskOk 5) none)).st.executed ++ [9] :=
  ⟨(claim8_addNextTask_runs_next _ (taskOk 9) { task := taskOk 0, key := none } 0
      (by decide) (by decide) (by decide) (by decide)).1,
   (claim8_addNextTask_runs_next _ (taskOk 9) { task := taskOk 0, key := none } 0
      (by decide) (by decide) (by decide) (by decide)).2.2.1⟩

/-- Every path of `setStatus` only prepends to the notification log. -/
theorem setStatus_events_suffix (s : QueueState) (next : QueueStatus) :
    ∃ extra, (setStatus s next).events = extra ++ s.events := by
  unfold setStatus
  split
  · exact ⟨[next], rfl⟩
  · exact ⟨[], rfl⟩

/-- `startRunner` only prepends to the notification log. -/
theorem startRunner_events_suffix (c : Config) :
    ∃ extra, (startRunner c).st.events = extra ++ c.st.events := by
  unfold startRunner
  split
  · exact ⟨[], rfl⟩
  · split
    · exact setStatus_events_suffix c.st _
    · exact setStatus_events_suffix c.st _

/-- The post-resurrect part of `enqueue` only prepends to the log. -/
theorem enqueueCore_events_suffix (c : Config) (t : Task) (p : Position)
    (k : Option String) :
    ∃ extra, (enqueueCore c t p k).st.events = extra ++ c.st.events := by
  have hins : ∃ extra, (insertEntry c t p k).st.events = extra ++ c.st.events := by
    unfold insertEntry startIfIdle
    split
    · split
      · exact startRunner_events_suffix _
      · exact ⟨[], rfl⟩
    · split
      · exact startRunner_events_suffix _
      · exact ⟨[], rfl⟩
  unfold enqueueCore
  split
  · split
    · split
      · exact startRunner_events_suffix c
      · exact ⟨[], rfl⟩
    · exact hins
  · exact hins

/-- `enqueueCore` never touches the generation token. -/
theorem enqueueCore_version (c : Config) (t : Task) (p : Position)
    (k : Option String) : (enqueueCore c t p k).st.version = c.st.version := by
  unfold enqueueCore
  split
  · split
    · split <;> simp
    · simp
  · simp

/-- C5: a submission into a `Cancelled` queue — by `addTask` or by
`addNextTask` — resurrects it before the insertion logic runs: the
generation token is incremented and an `Idle` notification fires first
(whatever the insertion then adds on top); on the
concrete trace cancel-then-submit the observable status sequence is the
initial `Idle` followed by `Cancelled, Idle, Processing, Idle`, and the
newly submitted task executes exactly once. -/
theorem claim5_resurrect_on_submit :
    (∀ (c : Config) (t : Task) (k : Option String),
      c.st.status = QueueStatus.Cancelled →
      (addTask c t k).st.version = c.st.version + 1 ∧
      (addNextTask c t).st.version = c.st.version + 1 ∧
      (∃ extra, (addTask c t k).st.events
        = extra ++ (QueueStatus.Idle :: c.st.events)) ∧
      (∃ extra, (addNextTask c t).st.events
        = extra ++ (QueueStatus.Idle :: c.st.events))) ∧
    (runSteps 6 (addTask (cancelQueue (mkQueue false)) (taskOk 7) none)).st.events.reverse
      = [QueueStatus.Idle, QueueStatus.Cancelled, QueueStatus.Idle,
         QueueStatus.Processing, QueueStatus.Idle] ∧
    (runSteps 6 (addTask (cancelQueue (mkQueue false)) (taskOk 7) none)).st.executed
      = [7] ∧
    (runSteps 6 (addTask (cancelQueue (mkQueue false)) (taskOk 7) none)).st.status
      = QueueStatus.Idle := by
  refine ⟨?_, by decide, by decide, by decide⟩
  intro c t k hc
  have hres : resurrectIfCancelled c
      = { c with st := { c.st with
            version := c.st.version + 1
            status := QueueStatus.Idle
            events := QueueStatus.Idle :: c.st.events } } := by
    unfold resurrectIfCancelled
    rw [if_pos hc]
  refine ⟨?_, ?_, ?_, ?_⟩
  · unfold addTask enqueue
    rw [hres, enqueueCore_version]
  · unfold addNextTask enqueue
    rw [hres, enqueueCore_version]
  · unfold addTask enqueue
    rw [hres]
    exact enqueueCore_events_suffix _ t Position.atEnd k
  · unfold addNextTask enqueue
    rw [hres]
    exact enqueueCore_events_suffix _ t Position.front none

/-- Witness for C5's general part at a concrete cancelled configuration,
for both submission operations. -/
theorem claim5_resurrect_on_submit_witness :
    (addTask (cancelQueue (mkQueue false)) (taskOk 7) none).st.version
      = (cancelQueue (mkQueue false)).st.version + 1 ∧
    (addNextTask (cancelQueue (mkQueue false)) (taskOk 7)).st.version
      = (cancelQueue (mkQueue false)).st.version + 1 ∧
    ∃ extra, (addNextTask (cancelQueue (mkQueue false)) (taskOk 7)).st.events
      = extra ++ (QueueStatus.Idle :: (cancelQueue (mkQueue false)).st.events) :=
  ⟨(claim5_resurrect_on_submit.1 (cancelQueue (mkQueue false)) (taskOk 7) none
      (by decide)).1,
   (claim5_resurrect_on_submit.1 (cancelQueue (mkQueue false)) (taskOk 7) none
      (by decide)).2.1,
   (claim5_resurrect_on_submit.1 (cancelQueue (mkQueue false)) (taskOk 7) none
      (by decide)).2.2.2⟩

/-! ### FIFO drain machinery (claim C3) -/

/-- No submission of the list is suppressed by the adjacent-dedupe rule
when `prev` is the key the first submission would be compared against:
each key is untruthy or differs from the key inserted just before it. -/
def noSuppress : Option String → List (Task × Option String) → Prop
  | _, [] => True
  | prev, (_, k) :: rest => ¬(truthy k = true ∧ k = prev) ∧ noSuppress k rest

theorem loopStep_atTop_cons {c : Config} {g : Nat} {e : QueueEntry}
    {rest : List QueueEntry}
    (hl : c.loop = some { gen := g, pos := LoopPos.atTop })
    (hs : c.st.status = QueueStatus.Processing)
    (hv : c.st.version = g)
    (hq : c.st.queue = e :: rest) :
    loopStep c
      = { st := { c.st with
            queue := rest
            currentTaskKey := e.key
            executed := c.st.executed ++ [e.task.id] }
          loop := some { gen := g, pos := LoopPos.inTask e } } := by
  simp [loopStep, hl, hq, hs, hv]

theorem loopStep_atTop_drained {c : Config} {g : Nat}
    (hl : c.loop = some { gen := g, pos := LoopPos.atTop })
    (hs : c.st.status = QueueStatus.Processing)
    (hv : c.st.version = g)
    (hq : c.st.queue = []) :
    loopStep c
      = { st := setStatus c.st QueueStatus.Idle
          loop := some { gen := g, pos := LoopPos.finished } } := by
  simp [loopStep, hl, hq, hs, hv, finalizeLoop]

theorem loopStep_inTask_noPause (s : QueueState) (g : Nat) (e : QueueEntry)
    (hp : s.pauseOnError = false) :
    loopStep { st := s, loop := some { gen := g, pos := LoopPos.inTask e } }
      = { st := { s with currentTaskKey := none }
          loop := some { gen := g, pos := LoopPos.atTop } } := by
  rcases ho : e.task.outcome with _ | th
  · simp [loopStep, ho]
  · simp [loopStep, ho, hp]

theorem loopStep_finished (s : QueueState) (g : Nat) :
    loopStep { st := s, loop := some { gen := g, pos := LoopPos.finished } }
      = { st := s, loop := none } := by
  simp [loopStep]

/-- A live runner with a matching generation, `Processing` status and
pause-on-error disabled drains the pending collection in submission order
and sets the final status to `Idle`. -/
theorem runSteps_drain (l : List QueueEntry) :
    ∀ (c : Config) (g : Nat), c.loop = some { gen := g, pos := LoopPos.atTop } →
      c.st.version = g → c.st.status = QueueStatus.Processing →
      c.st.pauseOnError = false → c.st.queue = l →
      (runSteps (2 * l.length + 2) c).st.executed
          = c.st.executed ++ l.map (fun e => e.task.id) ∧
      (runSteps (2 * l.length + 2) c).st.status = QueueStatus.Idle ∧
      (runSteps (2 * l.length + 2) c).st.queue = [] ∧
      (runSteps (2 * l.length + 2) c).loop = none := by
  induction l with
  | nil =>
    intro c g hl hv hs hp hq
    have h1 := loopStep_atTop_drained hl hs hv hq
    have hred : runSteps (2 * ([] : List QueueEntry).length + 2) c
        = loopStep (loopStep c) := rfl
    have h2 : loopStep (loopStep c)
        = { st := setStatus c.st QueueStatus.Idle, loop := none } := by
      rw [h1]
      exact loopStep_finished _ g
    rw [hred, h2]
    refine ⟨by simp, ?_, by simp [hq], rfl⟩
    exact setStatus_status_of_ne
      (by rw [hs]; exact fun hcon => QueueStatus.noConfusion hcon)
  | cons e rest ih =>
    intro c g hl hv hs hp hq
    have hred : runSteps (2 * (e :: rest).length + 2) c
        = runSteps (2 * rest.length + 2) (loopStep (loopStep c)) := rfl
    have hA := loopStep_atTop_cons hl hs hv hq
    have hB : loopStep (loopStep c)
        = { st := { c.st with
              queue := rest
              currentTaskKey := none
              executed := c.st.executed ++ [e.task.id] }
            loop := some { gen := g, pos := LoopPos.atTop } } := by
      rw [hA]
      exact loopStep_inTask_noPause _ g e hp
    obtain ⟨ih1, ih2, ih3, ih4⟩ :=
      ih { st := { c.st with
             queue := rest
             currentTaskKey := none
             executed := c.st.executed ++ [e.task.id] }
           loop := some { gen := g, pos := LoopPos.atTop } } g rfl hv hs hp rfl
    rw [hred, hB]
    refine ⟨?_, ih2, ih3, ih4⟩
    rw [ih1]
    simp

/-- Submissions made while the runner is `Processing` and none of them is
suppressed by the adjacent-dedupe rule simply append, in order, to the
pending collection. -/
theorem submitAll_processing (subs : List (Task × Option String)) :
    ∀ c : Config, c.st.status = QueueStatus.Processing → c.st.queue ≠ [] →
      noSuppress (lastKeyOf c.st) subs →
      submitAll c subs
        = { c with st := { c.st with
            queue := c.st.queue
              ++ subs.map (fun p => { task := p.1, key := p.2 }) } } := by
  induction subs with
  | nil =>
    intro c h1 h2 h3
    show c = _
    simp only [List.map_nil, List.append_nil]
  | cons p rest ih =>
    rcases p with ⟨t, k⟩
    intro c h1 h2 h3
    obtain ⟨hns, hrest⟩ := h3
    have hinsert : insertEntry c t Position.atEnd k
        = { c with st := { c.st with
            queue := c.st.queue ++ [{ task := t, key := k }] } } := by
      unfold insertEntry startIfIdle
      rw [if_neg (by simp [h1])]
      rw [if_neg (by simp)]
    have hadd : addTask c t k
        = { c with st := { c.st with
            queue := c.st.queue ++ [{ task := t, key := k }] } } := by
      unfold addTask enqueue enqueueCore
      rw [resurrectIfCancelled_of_ne
        (by rw [h1]; exact fun hcon => QueueStatus.noConfusion hcon)]
      by_cases htr : truthy k = true
      · rw [if_pos ⟨rfl, htr⟩]
        rw [if_neg (fun heq => hns ⟨htr, heq.symm⟩)]
        exact hinsert
      · rw [if_neg (fun hcon => htr hcon.2)]
        exact hinsert
    have hlast : lastKeyOf { c.st with
        queue := c.st.queue ++ [{ task := t, key := k }] } = k := by
      unfold lastKeyOf
      simp
    show submitAll (addTask c t k) rest = _
    rw [hadd]
    rw [ih { c with st := { c.st with
          queue := c.st.queue ++ [{ task := t, key := k }] } } h1 (by simp)
      (by
        show noSuppress (lastKeyOf { c.st with
          queue := c.st.queue ++ [{ task := t, key := k }] }) rest
        rw [hlast]
        exact hrest)]
    simp

/-- The first submission into a fresh queue inserts the entry and starts
the runner, capturing generation 0. -/
theorem addTask_mkQueue (t : Task) (k : Option String) :
    addTask (mkQueue false) t k
      = { st := { queue := [{ task := t, key := k }]
                  status := QueueStatus.Processing
                  resumeResolve := false
                  lastError := none
                  pauseOnError := false
                  currentTaskKey := none
                  version := 0
                  events := [QueueStatus.Processing, QueueStatus.Idle]
                  executed := [] }
          loop := some { gen := 0, pos := LoopPos.atTop } } := by
  have hins : insertEntry (mkQueue false) t Position.atEnd k
      = { st := { queue := [{ task := t, key := k }]
                  status := QueueStatus.Processing
                  resumeResolve := false
                  lastError := none
                  pauseOnError := false
                  currentTaskKey := none
                  version := 0
                  events := [QueueStatus.Processing, QueueStatus.Idle]
                  executed := [] }
          loop := some { gen := 0, pos := LoopPos.atTop } } := by
    unfold insertEntry startIfIdle startRunner mkQueue initState setStatus
    simp
  unfold addTask enqueue enqueueCore
  rw [resurrectIfCancelled_of_ne (by decide)]
  by_cases htr : truthy k = true
  · have hnone : ¬ lastKeyOf (mkQueue false).st = k := by
      rcases k with _ | s
      · simp [truthy] at htr
      · intro heq
        exact Option.noConfusion (show (none : Option String) = some s from heq)
    rw [if_pos ⟨rfl, htr⟩, if_neg hnone]
    exact hins
  · rw [if_neg (fun hcon => htr hcon.2)]
    exact hins

/-- C3 as frozen fails on the code in two ways.  First, with dedupe keys the
second of two adjacent submissions carrying the same key `"k"` never
executes (only task 0 runs, yet the queue drains to `Idle`).  Second, with
`pauseOnError` enabled and no `pauseQueue`/`cancelQueue` call, a failing
task parks the queue at `Paused` and the following task never executes. -/
theorem claim3_counterexample :
    (runSteps 6 (submitAll (mkQueue false)
        [(taskOk 0, some strK), (taskOk 1, some strK)])).st.executed = [0] ∧
    ¬((runSteps 6 (submitAll (mkQueue false)
        [(taskOk 0, some strK), (taskOk 1, some strK)])).st.executed = [0, 1]) ∧
    (runSteps 6 (submitAll (mkQueue false)
        [(taskOk 0, some strK), (taskOk 1, some strK)])).st.status
      = QueueStatus.Idle ∧
    (runSteps 6 (submitAll (mkQueue false)
        [(taskOk 0, some strK), (taskOk 1, some strK)])).st.queue = [] ∧
    (runSteps 8 (submitAll (mkQueue true)
        [(taskThrowStr 0 strBoom, none), (taskOk 1, none)])).st.executed = [0] ∧
    (runSteps 8 (submitAll (mkQueue true)
        [(taskThrowStr 0 strBoom, none), (taskOk 1, none)])).st.status
      = QueueStatus.Paused := by
  decide

/-- C3 (amended): for every sequence of `addTask` submissions with no
`pauseQueue`/`cancelQueue` calls, provided no submission is suppressed by
the adjacent-dedupe rule and no failure engages the pause-on-error policy
(`pauseOnError` disabled), the submitted tasks execute exactly once each in
submission (FIFO) order, and once the pending collection is drained the
status is `Idle`. -/
theorem claim3_fifo_amended (subs : List (Task × Option String))
    (hns : noSuppress none subs) :
    (runSteps (2 * subs.length + 2) (submitAll (mkQueue false) subs)).st.executed
        = subs.map (fun p => p.1.id) ∧
    (runSteps (2 * subs.length + 2) (submitAll (mkQueue false) subs)).st.status
        = QueueStatus.Idle ∧
    (runSteps (2 * subs.length + 2) (submitAll (mkQueue false) subs)).st.queue
        = [] := by
  cases subs with
  | nil => exact ⟨rfl, rfl, rfl⟩
  | cons p rest =>
    rcases p with ⟨t, k⟩
    obtain ⟨hns1, hrest⟩ := hns
    have hsub : submitAll (mkQueue false) ((t, k) :: rest)
        = submitAll (addTask (mkQueue false) t k) rest := rfl
    rw [hsub, addTask_mkQueue]
    rw [submitAll_processing rest
      { st := { queue := [{ task := t, key := k }]
                status := QueueStatus.Processing
                resumeResolve := false
                lastError := none
                pauseOnError := false
                currentTaskKey := none
                version := 0
                events := [QueueStatus.Processing, QueueStatus.Idle]
                executed := [] }
        loop := some { gen := 0, pos := LoopPos.atTop } } rfl (by simp) hrest]
    rw [show 2 * ((t, k) :: rest).length + 2
        = 2 * ({ task := t, key := k }
            :: rest.map (fun p => ({ task := p.1, key := p.2 } : QueueEntry))).length + 2
      from by simp]
    simp only [List.singleton_append]
    obtain ⟨d1, d2, d3, _⟩ := runSteps_drain
      ({ task := t, key := k } :: rest.map (fun p => { task := p.1, key := p.2 }))
      { st := { queue := { task := t, key := k }
                  :: rest.map (fun p => { task := p.1, key := p.2 })
                status := QueueStatus.Processing
                resumeResolve := false
                lastError := none
                pauseOnError := false
                currentTaskKey := none
                version := 0
                events := [QueueStatus.Processing, QueueStatus.Idle]
                executed := [] }
        loop := some { gen := 0, pos := LoopPos.atTop } } 0 rfl rfl rfl rfl rfl
    refine ⟨?_, ?_, ?_⟩
    · rw [d1]
      simp [List.map_map, Function.comp_def]
    · exact d2
    · exact d3

/-- Witness for C3 (amended) at a concrete suppression-free submission
list. -/
theorem claim3_fifo_amended_witness :
    (runSteps 8 (submitAll (mkQueue false)
        [(taskOk 3, none), (taskOk 4, some strK), (taskOk 5, some strJ)])).st.executed
      = [3, 4, 5] ∧
    (runSteps 8 (submitAll (mkQueue false)
        [(taskOk 3, none), (taskOk 4, some strK), (taskOk 5, some strJ)])).st.status
      = QueueStatus.Idle :=
  ⟨(claim3_fifo_amended [(taskOk 3, none), (taskOk 4, some strK), (taskOk 5, some strJ)]
      (by simp [noSuppress, truthy, strK, strJ])).1,
   (claim3_fifo_amended [(taskOk 3, none), (taskOk 4, some strK), (taskOk 5, some strJ)]
      (by simp [noSuppress, truthy, strK, strJ])).2.1⟩

end SchieQueue
